import Mathlib

/-!
Verification of `lab_8_llm/main.py`: a pipeline that imports a HuggingFace
dataset, preprocesses it, runs batched causal-LM inference, and evaluates
predictions with BLEU/ROUGE.

A pandas `DataFrame` is embedded as a `Table`: a list of column labels and a
list of rows, each row a list of string cells (the datasets handled here are
all-string instruction datasets; an empty string is what the code treats as a
missing value, via `replace("", pd.NA)`).  External library calls (HuggingFace
tokenizer/model, the `evaluate` scorers, `load_dataset`) are abstracted as
explicit function parameters; everything the repository's own code does to
their results is embedded faithfully.  Python exceptions are modelled with
`Option`/`Except`.
-/

namespace Lab8

/-- A pandas DataFrame: column labels plus rows of string cells. -/
structure Table where
  cols : List String
  rows : List (List String)
deriving Repr, DecidableEq

/-- A table is well formed when every row has one cell per column
(pandas frames are rectangular by construction). -/
def Table.WF (t : Table) : Prop :=
  ∀ r ∈ t.rows, r.length = t.cols.length

instance (t : Table) : Decidable t.WF := by
  unfold Table.WF; infer_instance

/-- `mapMOpt f l` is `some (l.map g)` when `f` succeeds (with value `g x`)
on every element, and `none` as soon as one call fails — the `Option`
monad's `mapM`, written as a plain recursion. -/
def mapMOpt (f : α → Option β) : List α → Option (List β)
  | [] => some []
  | x :: xs => (f x).bind fun y => (mapMOpt f xs).map fun ys => y :: ys

/-- Look up the column position of label `c` (pandas label-based access). -/
def Table.colIdx (t : Table) (c : String) : Option Nat :=
  t.cols.findIdx? (fun c0 => c0 = c)

/-- Extract the column of label `c` as a list of cells, top to bottom;
`none` when the label is missing or a row is too short (a `KeyError`). -/
def Table.col? (t : Table) (c : String) : Option (List String) :=
  (t.colIdx c).bind fun i => mapMOpt (fun r => r.get? i) t.rows

/-- `df.drop(columns=cs)`: remove every column whose label is in `cs`;
pandas raises `KeyError` when one of the labels is absent (`none`). -/
def Table.dropColumns (t : Table) (cs : List String) : Option Table :=
  if cs.all (fun c => t.cols.contains c) then
    some { cols := t.cols.filter (fun c => !cs.contains c),
           rows := t.rows.map (fun r =>
             ((t.cols.zip r).filter (fun p => !cs.contains p.1)).map (fun p => p.2)) }
  else none

/-- `df.rename(columns=...)` as a relabelling function on column labels;
rows are untouched and labels not mentioned map to themselves. -/
def Table.renameCols (t : Table) (f : String → String) : Table :=
  { cols := t.cols.map f, rows := t.rows }

/-- The column relabelling of `RawDataPreprocessor.transform`:
`instruction → question`, `output → target`. -/
def transformRename (c : String) : String :=
  if c = "instruction" then "question" else if c = "output" then "target" else c

/-- `RawDataPreprocessor.transform`: drop the `input` and `text` columns,
then rename `instruction` to `question` and `output` to `target`.
`none` models the pandas `KeyError` when `input` or `text` is missing. -/
def transform (raw : Table) : Option Table :=
  (raw.dropColumns ["input", "text"]).map (fun t => t.renameCols transformRename)

/-! ### `RawDataPreprocessor.analyze` -/

/-- A row survives `replace("", pd.NA).dropna()` iff none of its cells is the
empty string. -/
def rowComplete (r : List String) : Bool :=
  r.all (fun c => !(c = ""))

/-- The rows kept by `replace("", pd.NA).dropna()` — the rows with no empty
cell, in their original order.  (`reset_index()` also prepends an `index`
column, which `analyze` never reads.) -/
def completeRows (t : Table) : List (List String) :=
  t.rows.filter rowComplete

/-- `raw.replace("", pd.NA).isna().sum().sum()`: the number of empty-string
cells across the whole frame. -/
def countEmptyCells (t : Table) : Nat :=
  (t.rows.map (fun r => r.countP (fun c => c = ""))).sum

/-- `raw.duplicated().sum()` with pandas' default `keep='first'`: walking the
rows top to bottom, count each row already seen earlier. -/
def dupCountAux (seen : List (List String)) : List (List String) → Nat
  | [] => 0
  | r :: rs => (if seen.contains r then 1 else 0) + dupCountAux (r :: seen) rs

/-- The number of rows marked by `raw.duplicated()` (every occurrence after
the first of an identical row). -/
def dupCount (rows : List (List String)) : Nat :=
  dupCountAux [] rows

/-- The dict returned by `RawDataPreprocessor.analyze`. -/
structure AnalyzeReport where
  dataset_number_of_samples : Nat
  dataset_columns : Nat
  dataset_duplicates : Nat
  dataset_empty_rows : Nat
  dataset_sample_min_len : Nat
  dataset_sample_max_len : Nat
deriving Repr, DecidableEq

/-- `RawDataPreprocessor.analyze`.  Computes the row/column counts, the
duplicated-row count, the empty-cell count, and the min/max character length
of the `instruction` column restricted to `completeRows`.  `none` models the
exceptions of the source: `KeyError` when the `instruction` column is missing
(or a kept row is too short to have the cell) and `ValueError` from
`min(..., key=len)`/`max(..., key=len)` when every row has an empty cell. -/
def analyze (t : Table) : Option AnalyzeReport :=
  (t.colIdx "instruction").bind fun i =>
    (mapMOpt (fun r => (r.get? i).map String.length) (completeRows t)).bind fun lens =>
      match lens with
      | [] => none
      | l :: ls => some
          { dataset_number_of_samples := t.rows.length
            dataset_columns := t.cols.length
            dataset_duplicates := dupCount t.rows
            dataset_empty_rows := countEmptyCells t
            dataset_sample_min_len := ls.foldl Nat.min l
            dataset_sample_max_len := ls.foldl Nat.max l }

/-! ### `TaskDataset` -/

/-- `TaskDataset.__len__`: the number of rows of the backing table. -/
def taskLen (data : Table) : Nat :=
  data.rows.length

/-- `TaskDataset.__getitem__`: `(data.iloc[index]['question'],
data.iloc[index]['target'])`.  `none` models `IndexError`/`KeyError`. -/
def taskGetItem (data : Table) (index : Nat) : Option (String × String) :=
  (data.rows.get? index).bind fun r =>
    (data.colIdx "question").bind fun qi =>
      (data.colIdx "target").bind fun ti =>
        (r.get? qi).bind fun q =>
          (r.get? ti).map fun tg => (q, tg)

/-- The `TaskDataset.data` property: returns the backing table itself. -/
def taskData (data : Table) : Table :=
  data

/-! ### `LLMPipeline`

The HuggingFace tokenizer, model and decoder are external; they are abstracted
as a `ModelEnv`, recording exactly the arguments the repository's code passes
to them.  `tokenize texts padding truncation` models
`self._tokenizer(texts, padding=…, truncation=…, return_tensors='pt')`,
`generate tokens maxLength` models `self._model.generate(**tokens,
max_length=…)`, and `batch_decode output skipSpecialTokens` models
`self._tokenizer.batch_decode(output, skip_special_tokens=…)`. -/

structure ModelEnv (Tok Out : Type) where
  tokenize : List String → Bool → Bool → Tok
  generate : Tok → Nat → Out
  batch_decode : Out → Bool → List String

/-- An environment is faithful to the HuggingFace contract when the
tokenize/generate/decode round trip yields one decoded string per input
text, whatever the flags and length bound. -/
def ModelEnv.LengthFaithful (env : ModelEnv Tok Out) : Prop :=
  ∀ (texts : List String) (p tr : Bool) (maxLength : Nat) (sk : Bool),
    (env.batch_decode (env.generate (env.tokenize texts p tr) maxLength) sk).length
      = texts.length

/-- The list comprehension closing `_infer_batch`:
`[prediction[len(texts[i]) + 1:] for i, prediction in enumerate(predictions)]`.
Walks the decoded predictions against the tokenized texts; `none` models the
`IndexError` raised when there are more predictions than texts. -/
def stripPrompts : List String → List String → Option (List String)
  | [], _ => some []
  | _ :: _, [] => none
  | p :: ps, tx :: txs =>
      (stripPrompts ps txs).map (fun rest => p.drop (tx.length + 1) :: rest)

/-- `LLMPipeline._infer_batch` applied to the list `sample_batch[0]` (the only
part of `sample_batch` the method reads): tokenize with `padding=True,
truncation=True`, generate with `max_length`, decode with
`skip_special_tokens=True`, then strip `len(text)+1` leading characters from
each decoded prediction. -/
def inferBatchOnFirst (env : ModelEnv Tok Out) (maxLength : Nat)
    (texts : List String) : Option (List String) :=
  stripPrompts
    (env.batch_decode (env.generate (env.tokenize texts true true) maxLength) true)
    texts

/-- `LLMPipeline.infer_sample sample`: `self._infer_batch((sample,))[0]` when a
model is loaded, `None` otherwise.  Since `sample_batch = (sample,)`, the list
`sample_batch[0]` is the sample pair itself, so both the question and the
target are tokenized as a two-string batch.  The outer `Option` models
exceptions; the inner one is the Python return value (`some none` = returned
`None`). -/
def inferSample (env : ModelEnv Tok Out) (maxLength : Nat) (modelLoaded : Bool)
    (sample : String × String) : Option (Option String) :=
  if modelLoaded then
    ((inferBatchOnFirst env maxLength [sample.1, sample.2]).bind
      (fun preds => preds.get? 0)).map some
  else some none

/-- `DataLoader(dataset, batch_size=n)` batching: split a list into
consecutive chunks, each of size `n` except possibly a shorter final one
(for `n = 0` the `DataLoader` constructor raises; here it degenerates to
singleton chunks and every theorem assumes `0 < n`). -/
def chunksOf (n : Nat) : List α → List (List α)
  | [] => []
  | x :: xs => (x :: xs.take (n - 1)) :: chunksOf n (xs.drop (n - 1))
termination_by l => l.length
decreasing_by
  simp only [List.length_drop, List.length_cons]
  omega

/-- The predictions accumulated by the loop of `LLMPipeline.infer_dataset`:
the dataset is read as `(question, target)` samples in index order, batched by
`chunksOf`, the default collate turns each batch of pairs into a pair of lists
so that `sample_batch[0]` is the batch's question list, and the per-batch
prediction lists are concatenated in order. -/
def inferPreds (env : ModelEnv Tok Out) (batchSize maxLength : Nat)
    (data : Table) : Option (List String) :=
  (mapMOpt (taskGetItem data) (List.range (taskLen data))).bind fun samples =>
    (mapMOpt (fun b => inferBatchOnFirst env maxLength (b.map Prod.fst))
        (chunksOf batchSize samples)).map fun preds => preds.flatten

/-- `df[c] = vals`: overwrite column `c` when present, else append it on the
right; pandas raises `ValueError` when the value list length differs from the
row count (`none`). -/
def Table.setColumn (t : Table) (c : String) (vals : List String) : Option Table :=
  if vals.length = t.rows.length then
    match t.colIdx c with
    | some i => some { cols := t.cols,
                       rows := (t.rows.zip vals).map (fun p => p.1.set i p.2) }
    | none => some { cols := t.cols ++ [c],
                     rows := (t.rows.zip vals).map (fun p => p.1 ++ [p.2]) }
  else none

/-- `pd.DataFrame(df[cs])`: the sub-table of the columns labelled by `cs`, in
that order; `none` models the `KeyError` for a missing label. -/
def Table.selectCols (t : Table) (cs : List String) : Option Table :=
  (mapMOpt t.colIdx cs).bind fun idxs =>
    (mapMOpt (fun r => mapMOpt r.get? idxs) t.rows).map fun rows =>
      { cols := cs, rows := rows }

/-- `LLMPipeline.infer_dataset`: iterate the dataset in batches, collect the
predictions, assign them as the `predictions` column of the backing table,
and return the `(target, predictions)` two-column view.  The result pairs the
mutated backing table with the returned view. -/
def inferDataset (env : ModelEnv Tok Out) (batchSize maxLength : Nat)
    (data : Table) : Option (Table × Table) :=
  (inferPreds env batchSize maxLength data).bind fun prediction =>
    (data.setColumn "predictions" prediction).bind fun backing =>
      (backing.selectCols ["target", "predictions"]).map fun view =>
        (backing, view)

/-! ### `TaskEvaluator` -/

/-- The external `evaluate` scorers, abstracted: `bleuCompute refs preds`
models the dict returned by `load("bleu").compute(references=refs,
predictions=preds)` as a key-lookup function (so `.get("bleu")` is
application to `"bleu"`), and likewise `rougeCompute` for `load("rouge")`. -/
structure EvalEnv (V : Type) where
  bleuCompute : List String → List String → String → Option V
  rougeCompute : List String → List String → String → Option V

/-- Python `dict.update({k: v})`: overwrite the value if the key exists
(keeping its position), otherwise append the pair. -/
def dictUpdate (d : List (String × Option V)) (k : String) (v : Option V) :
    List (String × Option V) :=
  if d.any (fun p => p.1 = k) then
    d.map (fun p => if p.1 = k then (k, v) else p)
  else d ++ [(k, v)]

/-- The metric loop of `TaskEvaluator.run` over the already-read table
`data`: a `"bleu"` entry stores `compute(...).get("bleu")`, a `"rouge"` entry
stores `compute(...).get("rougeL")`, anything else falls through both
branches and is skipped.  The `target`/`predictions` columns are only read
inside a matching branch (`none` models the `KeyError` when one is
missing there). -/
def runMetricsLoop (env : EvalEnv V) (data : Table)
    (acc : List (String × Option V)) : List String → Option (List (String × Option V))
  | [] => some acc
  | m :: ms =>
      if m = "bleu" then
        (data.col? "target").bind fun refs =>
          (data.col? "predictions").bind fun preds =>
            runMetricsLoop env data
              (dictUpdate acc "bleu" (env.bleuCompute refs preds "bleu")) ms
      else if m = "rouge" then
        (data.col? "target").bind fun refs =>
          (data.col? "predictions").bind fun preds =>
            runMetricsLoop env data
              (dictUpdate acc "rouge" (env.rougeCompute refs preds "rougeL")) ms
      else runMetricsLoop env data acc ms

/-- `TaskEvaluator.run`: read the persisted CSV (`csv` stands for the parsed
file contents), drop the `Unnamed: 0` index-artifact column, then fold the
requested metric identifiers into a result dict. -/
def runEvaluator (env : EvalEnv V) (csv : Table) (metricIds : List String) :
    Option (List (String × Option V)) :=
  (csv.dropColumns ["Unnamed: 0"]).bind fun data =>
    runMetricsLoop env data [] metricIds

/-! ### `RawDataImporter.obtain` -/

/-- What `load_dataset(hf_name, split=…).to_pandas()` can produce: a
DataFrame, or some non-DataFrame value. -/
inductive FetchRes where
  | dataFrame (t : Table)
  | notDataFrame
deriving Repr, DecidableEq

/-- How `obtain` can fail: the explicit `TypeError` of the isinstance check,
or an arbitrary error `e` propagated from the fetch itself. -/
inductive ObtainError (E : Type) where
  | typeErr
  | fetchFailure (e : E)
deriving Repr, DecidableEq

/-- `RawDataImporter.obtain`: call the external fetch on the dataset name and
the `'train'` split; a fetch exception propagates unmodified, and a fetched
value that is not a DataFrame raises `TypeError`. -/
def obtain (fetch : String → String → Except E FetchRes) (hfName : String) :
    Except (ObtainError E) Table :=
  match fetch hfName "train" with
  | .error e => .error (.fetchFailure e)
  | .ok (.dataFrame t) => .ok t
  | .ok .notDataFrame => .error .typeErr

/-! ### Concrete environments and tables used by the witnesses -/

/-- The identity model environment used by the pipeline witnesses: the
"tokens" and the "generated output" are just the texts themselves, so each
decoded prediction echoes its prompt verbatim. -/
def wEnv : ModelEnv (List String) (List String) :=
  { tokenize := fun texts _ _ => texts
    generate := fun tokens _ => tokens
    batch_decode := fun output _ => output }

/-- A length-faithful environment whose decoded output depends on the whole
tokenized batch (as real padded batch generation can): each text is echoed
followed by `#` and the concatenation of the entire batch. -/
def cEnv : ModelEnv (List String) (List String) :=
  { tokenize := fun texts _ _ => texts.map (fun x => x ++ "#" ++ String.join texts)
    generate := fun tokens _ => tokens
    batch_decode := fun output _ => output }

/-- A small concrete raw table with a duplicate row, an empty cell, and two
complete rows. -/
def exTableC2 : Table :=
  ⟨["instruction", "input", "output", "text"],
   [["ab", "x", "c", "d"], ["q", "", "e", "f"], ["ab", "x", "c", "d"]]⟩

/-- The three-row clean table used by the pipeline witnesses. -/
def exTableC3 : Table :=
  ⟨["question", "target"], [["q0", "t0"], ["q1", "t1"], ["q2", "t2"]]⟩

/-- A concrete pair of external scorers for the evaluator witnesses. -/
def evEnvW : EvalEnv Nat :=
  { bleuCompute := fun _ _ key => if key = "bleu" then some 7 else none
    rougeCompute := fun _ _ key => if key = "rougeL" then some 9 else none }

/-- The persisted one-row CSV used by the evaluator witnesses. -/
def csvW : Table :=
  ⟨["Unnamed: 0", "target", "predictions"], [["0", "t", "p"]]⟩

/-! ### General lemmas about the embedding's building blocks -/

theorem mapMOpt_eq_some_map (f : α → Option β) (g : α → β) :
    ∀ l : List α, (∀ x ∈ l, f x = some (g x)) → mapMOpt f l = some (l.map g)
  | [], _ => rfl
  | x :: xs, h => by
      have hx : f x = some (g x) := h x (List.mem_cons_self x xs)
      have hxs : mapMOpt f xs = some (xs.map g) :=
        mapMOpt_eq_some_map f g xs (fun y hy => h y (List.mem_cons_of_mem x hy))
      simp [mapMOpt, hx, hxs]

theorem mapMOpt_map (f : β → Option γ) (g : α → β) :
    ∀ l : List α, mapMOpt f (l.map g) = mapMOpt (fun x => f (g x)) l
  | [] => rfl
  | x :: xs => by simp [mapMOpt, mapMOpt_map f g xs]

theorem mapMOpt_congr {f f' : α → Option β} :
    ∀ {l : List α}, (∀ x ∈ l, f x = f' x) → mapMOpt f l = mapMOpt f' l
  | [], _ => rfl
  | x :: xs, h => by
      simp [mapMOpt, h x (List.mem_cons_self x xs),
        mapMOpt_congr (fun y hy => h y (List.mem_cons_of_mem x hy))]

theorem colIdx_mem_some {t : Table} {c : String} (h : c ∈ t.cols) :
    ∃ i, t.colIdx c = some i := by
  unfold Table.colIdx
  cases hf : t.cols.findIdx? (fun c0 => c0 = c) with
  | some i => exact ⟨i, rfl⟩
  | none =>
      rw [List.findIdx?_eq_none_iff] at hf
      have := hf c h
      simp at this

theorem colIdx_lt_length {t : Table} {c : String} {i : Nat}
    (h : t.colIdx c = some i) : i < t.cols.length := by
  unfold Table.colIdx at h
  rw [List.findIdx?_eq_some_iff_getElem] at h
  exact h.1

theorem colIdx_getElem {t : Table} {c : String} {i : Nat}
    (h : t.colIdx c = some i) : t.cols[i]? = some c := by
  unfold Table.colIdx at h
  rw [List.findIdx?_eq_some_iff_getElem] at h
  obtain ⟨hi, hp, -⟩ := h
  simp only [decide_eq_true_eq] at hp
  simp [List.getElem?_eq_getElem hi, hp]

theorem colIdx_not_mem {t : Table} {c : String} (h : c ∉ t.cols) :
    t.colIdx c = none := by
  unfold Table.colIdx
  rw [List.findIdx?_eq_none_iff]
  intro x hx
  simp only [decide_eq_false_iff_not]
  exact fun hxc => h (hxc ▸ hx)

theorem stripPrompts_eq_zipWith :
    ∀ (ps txs : List String), ps.length ≤ txs.length →
      stripPrompts ps txs = some (List.zipWith (fun p tx => p.drop (tx.length + 1)) ps txs)
  | [], txs, _ => by cases txs <;> rfl
  | p :: ps, [], h => by simp at h
  | p :: ps, tx :: txs, h => by
      have := stripPrompts_eq_zipWith ps txs (by simpa using h)
      simp [stripPrompts, this]

theorem chunksOf_ne_nil_iff (n : Nat) (l : List α) :
    chunksOf n l = [] ↔ l = [] := by
  cases l with
  | nil => simp [chunksOf]
  | cons x xs => rw [chunksOf]; simp

theorem chunksOf_flatten (n : Nat) : ∀ l : List α, (chunksOf n l).flatten = l
  | [] => by simp [chunksOf]
  | x :: xs => by
      rw [chunksOf]
      have := chunksOf_flatten n (xs.drop (n - 1))
      simp [this]
termination_by l => l.length
decreasing_by
  simp only [List.length_drop, List.length_cons]
  omega

theorem chunksOf_length_le (n : Nat) (hn : 0 < n) :
    ∀ l : List α, ∀ b ∈ chunksOf n l, 0 < b.length ∧ b.length ≤ n
  | [] => by simp [chunksOf]
  | x :: xs => by
      rw [chunksOf]
      intro b hb
      rcases List.mem_cons.mp hb with h | h
      · subst h
        simp only [List.length_cons, List.length_take]
        omega
      · exact chunksOf_length_le n hn (xs.drop (n - 1)) b h
termination_by l => l.length
decreasing_by
  simp only [List.length_drop, List.length_cons]
  omega

theorem chunksOf_dropLast_length (n : Nat) (hn : 0 < n) :
    ∀ l : List α, ∀ b ∈ (chunksOf n l).dropLast, b.length = n
  | [] => by simp [chunksOf]
  | x :: xs => by
      rw [chunksOf]
      intro b hb
      cases hrest : chunksOf n (xs.drop (n - 1)) with
      | nil => rw [hrest] at hb; simp at hb
      | cons c cs =>
          rw [hrest, List.dropLast_cons_of_ne_nil (by simp)] at hb
          rcases List.mem_cons.mp hb with h | h
          · subst h
            have hxs : ¬(xs.length ≤ n - 1) := by
              intro hle
              have : xs.drop (n - 1) = [] := List.drop_eq_nil_of_le hle
              rw [this] at hrest
              simp [chunksOf] at hrest
            simp only [List.length_cons, List.length_take]
            omega
          · have := chunksOf_dropLast_length n hn (xs.drop (n - 1))
            rw [hrest] at this
            exact this b h
termination_by l => l.length
decreasing_by
  simp only [List.length_drop, List.length_cons]
  omega

theorem chunksOf_map (n : Nat) (f : α → β) :
    ∀ l : List α, chunksOf n (l.map f) = (chunksOf n l).map (List.map f)
  | [] => by simp [chunksOf]
  | x :: xs => by
      rw [List.map_cons, chunksOf, chunksOf, ← List.map_take, ← List.map_drop,
        chunksOf_map n f (xs.drop (n - 1))]
      simp
termination_by l => l.length
decreasing_by
  simp only [List.length_drop, List.length_cons]
  omega

theorem flatten_map_length_eq {g : List α → List β} :
    ∀ L : List (List α), (∀ b ∈ L, (g b).length = b.length) →
      ((L.map g).flatten).length = L.flatten.length
  | [], _ => rfl
  | b :: bs, h => by
      have hb := h b (List.mem_cons_self b bs)
      have hbs := flatten_map_length_eq bs (fun c hc => h c (List.mem_cons_of_mem b hc))
      simp [hb, hbs]

theorem foldl_min_mem : ∀ (ls : List Nat) (l : Nat), ls.foldl Nat.min l ∈ l :: ls
  | [], l => by simp
  | a :: as, l => by
      rw [List.foldl_cons]
      have ih := foldl_min_mem as (Nat.min l a)
      rcases List.mem_cons.mp ih with h | h
      · have hconv : Nat.min l a = min l a := rfl
        rw [h, hconv, min_def]
        split
        · exact List.mem_cons_self _ _
        · exact List.mem_cons_of_mem _ (List.mem_cons_self _ _)
      · exact List.mem_cons_of_mem _ (List.mem_cons_of_mem _ h)

theorem foldl_min_le : ∀ (ls : List Nat) (l : Nat) (x : Nat), x ∈ l :: ls →
    ls.foldl Nat.min l ≤ x
  | [], l, x, hx => by
      simp only [List.mem_singleton] at hx
      simp [hx]
  | a :: as, l, x, hx => by
      rw [List.foldl_cons]
      have hmin : as.foldl Nat.min (Nat.min l a) ≤ Nat.min l a :=
        foldl_min_le as (Nat.min l a) (Nat.min l a) (List.mem_cons_self _ _)
      rcases List.mem_cons.mp hx with h | h
      · exact h ▸ hmin.trans (Nat.min_le_left _ _)
      · rcases List.mem_cons.mp h with h' | h'
        · exact h' ▸ hmin.trans (Nat.min_le_right _ _)
        · exact foldl_min_le as (Nat.min l a) x (List.mem_cons_of_mem _ h')

theorem foldl_max_mem : ∀ (ls : List Nat) (l : Nat), ls.foldl Nat.max l ∈ l :: ls
  | [], l => by simp
  | a :: as, l => by
      rw [List.foldl_cons]
      have ih := foldl_max_mem as (Nat.max l a)
      rcases List.mem_cons.mp ih with h | h
      · have hconv : Nat.max l a = max l a := rfl
        rw [h, hconv, max_def]
        split
        · exact List.mem_cons_of_mem _ (List.mem_cons_self _ _)
        · exact List.mem_cons_self _ _
      · exact List.mem_cons_of_mem _ (List.mem_cons_of_mem _ h)

theorem foldl_max_ge : ∀ (ls : List Nat) (l : Nat) (x : Nat), x ∈ l :: ls →
    x ≤ ls.foldl Nat.max l
  | [], l, x, hx => by
      simp only [List.mem_singleton] at hx
      simp [hx]
  | a :: as, l, x, hx => by
      rw [List.foldl_cons]
      have hmax : Nat.max l a ≤ as.foldl Nat.max (Nat.max l a) :=
        foldl_max_ge as (Nat.max l a) (Nat.max l a) (List.mem_cons_self _ _)
      rcases List.mem_cons.mp hx with h | h
      · subst h
        exact (Nat.le_max_left _ _).trans hmax
      · rcases List.mem_cons.mp h with h' | h'
        · subst h'
          exact (Nat.le_max_right _ _).trans hmax
        · exact foldl_max_ge as (Nat.max l a) x (List.mem_cons_of_mem _ h')

theorem dedup_length_filter_ne (r : List String) :
    ∀ A : List (List String), A.dedup.length
      = ((A.filter (fun x => !(x == r))).dedup).length + (if r ∈ A then 1 else 0)
  | [] => rfl
  | a :: A => by
      have ih := dedup_length_filter_ne r A
      by_cases har : a = r
      · subst har
        rw [List.filter_cons_of_neg (by simp)]
        by_cases hmem : a ∈ A
        · rw [List.dedup_cons_of_mem hmem]
          simp only [List.mem_cons, true_or, if_pos, if_pos hmem] at ih ⊢
          omega
        · rw [List.dedup_cons_of_not_mem hmem]
          simp only [List.mem_cons, true_or, if_pos, if_neg hmem,
            List.length_cons] at ih ⊢
          omega
      · rw [List.filter_cons_of_pos (by simp [har])]
        have hor : (r ∈ a :: A) ↔ r ∈ A := by
          rw [List.mem_cons]
          exact or_iff_right (fun h => har h.symm)
        by_cases hmem : a ∈ A
        · rw [List.dedup_cons_of_mem hmem,
            List.dedup_cons_of_mem (List.mem_filter.mpr ⟨hmem, by simp [har]⟩)]
          rw [if_congr hor rfl rfl]
          exact ih
        · have hnf : a ∉ A.filter (fun x => !(x == r)) :=
            fun h => hmem (List.mem_filter.mp h).1
          rw [List.dedup_cons_of_not_mem hmem, List.dedup_cons_of_not_mem hnf,
            if_congr hor rfl rfl]
          simp only [List.length_cons]
          omega

theorem dupCountAux_add_dedup :
    ∀ (l : List (List String)) (seen : List (List String)),
      dupCountAux seen l + ((l.filter (fun r => !seen.contains r)).dedup).length = l.length
  | [], seen => rfl
  | r :: rs, seen => by
      rw [dupCountAux]
      by_cases hs : r ∈ seen
      · have hc : seen.contains r = true := by simpa using hs
        rw [List.filter_cons_of_neg (by simpa using hs)]
        have hfil : rs.filter (fun x => !seen.contains x)
            = rs.filter (fun x => !(r :: seen).contains x) := by
          apply List.filter_congr
          intro x _
          by_cases hxr : x = r
          · subst hxr
            simp [hs]
          · simp [List.contains_cons, hxr]
        rw [hc, hfil]
        have := dupCountAux_add_dedup rs (r :: seen)
        simp only [List.length_cons, eq_self_iff_true, if_true]
        omega
      · have hc : seen.contains r = false := by simpa using hs
        rw [List.filter_cons_of_pos (by simpa using hs)]
        have hfil : rs.filter (fun x => !(r :: seen).contains x)
            = (rs.filter (fun x => !seen.contains x)).filter (fun x => !(x == r)) := by
          rw [List.filter_filter]
          apply List.filter_congr
          intro x _
          simp only [List.contains_cons, Bool.not_or, Bool.and_comm]
        have ih := dupCountAux_add_dedup rs (r :: seen)
        rw [hfil] at ih
        have hded := dedup_length_filter_ne r (rs.filter (fun x => !seen.contains x))
        have hmemiff : r ∈ rs.filter (fun x => !seen.contains x) ↔ r ∈ rs := by
          rw [List.mem_filter]
          simp [hs]
        by_cases hrrs : r ∈ rs
        · have hrA : r ∈ rs.filter (fun x => !seen.contains x) := hmemiff.mpr hrrs
          rw [List.dedup_cons_of_mem hrA]
          rw [if_pos hrA] at hded
          simp only [hc, Bool.false_eq_true, if_false, List.length_cons]
          omega
        · have hrA : r ∉ rs.filter (fun x => !seen.contains x) :=
            fun h => hrrs (hmemiff.mp h)
          rw [List.dedup_cons_of_not_mem hrA]
          rw [if_neg hrA] at hded
          simp only [hc, Bool.false_eq_true, if_false, List.length_cons]
          omega

/-- `duplicated().sum()` counts everything except one representative per
distinct row: it equals `row count - number of distinct rows`. -/
theorem dupCount_add_dedup (rows : List (List String)) :
    dupCount rows + rows.dedup.length = rows.length := by
  have := dupCountAux_add_dedup rows []
  simpa [dupCount] using this

theorem countEmptyCells_eq_flatten (t : Table) :
    countEmptyCells t = t.rows.flatten.countP (fun c => c = "") := by
  rw [countEmptyCells, List.countP_flatten]

theorem length_filter_not_pair {a b : String} (l : List String) (hnd : l.Nodup)
    (h1 : a ∈ l) (h2 : b ∈ l) (hab : a ≠ b) :
    (l.filter (fun c => !([a, b] : List String).contains c)).length = l.length - 2 := by
  have hsplit :=
    List.length_eq_length_filter_add (l := l) (fun c => ([a, b] : List String).contains c)
  have hyes : (l.filter (fun c => ([a, b] : List String).contains c)).length = 2 := by
    set F := l.filter (fun c => ([a, b] : List String).contains c) with hF
    have hndF : F.Nodup := List.Nodup.filter _ hnd
    have hFset : F.toFinset = {a, b} := by
      ext x
      simp only [List.mem_toFinset, hF, List.mem_filter, List.contains_cons,
        Finset.mem_insert, Finset.mem_singleton]
      constructor
      · rintro ⟨-, hx⟩
        simpa using hx
      · rintro (rfl | rfl)
        · exact ⟨h1, by simp⟩
        · exact ⟨h2, by simp⟩
    have : F.length = F.toFinset.card := by
      rw [List.card_toFinset, hndF.dedup]
    rw [this, hFset, Finset.card_pair hab]
  rw [hyes] at hsplit
  omega

/-! ### Claim C1: `transform()` is a pure column projection -/

theorem transformRename_ne_dropped (c : String) :
    transformRename c ≠ "instruction" ∧ transformRename c ≠ "output" := by
  unfold transformRename
  split
  · exact ⟨by decide, by decide⟩
  · split
    · exact ⟨by decide, by decide⟩
    · next h1 h2 => exact ⟨h1, h2⟩

theorem transformRename_preimage_input {c : String} :
    (transformRename c = "input" → c = "input") ∧
    (transformRename c = "text" → c = "text") := by
  unfold transformRename
  split
  · exact ⟨fun h => absurd h (by decide), fun h => absurd h (by decide)⟩
  · split
    · exact ⟨fun h => absurd h (by decide), fun h => absurd h (by decide)⟩
    · exact ⟨id, id⟩

/-- C1: on a raw table with nodup columns containing `instruction`, `input`,
`output`, `text`, `transform()` succeeds and yields a table with exactly two
fewer columns, in which `question` and `target` are present and
`instruction`/`output`/`input`/`text` are absent, and whose rows are the raw
rows in the same order and number, each merely projected onto the kept
columns. -/
theorem C1_transform_pure_projection (raw : Table)
    (hnd : raw.cols.Nodup)
    (hins : "instruction" ∈ raw.cols) (hinp : "input" ∈ raw.cols)
    (hout : "output" ∈ raw.cols) (htxt : "text" ∈ raw.cols) :
    ∃ t, transform raw = some t ∧
      t.cols.length = raw.cols.length - 2 ∧
      "question" ∈ t.cols ∧ "target" ∈ t.cols ∧
      "instruction" ∉ t.cols ∧ "output" ∉ t.cols ∧
      "input" ∉ t.cols ∧ "text" ∉ t.cols ∧
      t.rows.length = raw.rows.length ∧
      t.rows = raw.rows.map (fun r =>
        ((raw.cols.zip r).filter
          (fun p => !(["input", "text"] : List String).contains p.1)).map (fun p => p.2)) := by
  have hguard : (["input", "text"] : List String).all (fun c => raw.cols.contains c) = true := by
    simp only [List.all_cons, List.all_nil, Bool.and_true, Bool.and_eq_true]
    exact ⟨by simpa using hinp, by simpa using htxt⟩
  have htrans : transform raw = some
      ⟨(raw.cols.filter (fun c => !(["input", "text"] : List String).contains c)).map
          transformRename,
        raw.rows.map (fun r => ((raw.cols.zip r).filter
          (fun p => !(["input", "text"] : List String).contains p.1)).map (fun p => p.2))⟩ := by
    rw [transform, Table.dropColumns, if_pos hguard]
    rfl
  refine ⟨_, htrans, ?_, ?_, ?_, ?_, ?_, ?_, ?_, ?_, rfl⟩
  · simp only [List.length_map]
    exact length_filter_not_pair raw.cols hnd hinp htxt (by decide)
  · refine List.mem_map.mpr ⟨"instruction", ?_, by decide⟩
    exact List.mem_filter.mpr ⟨hins, by decide⟩
  · refine List.mem_map.mpr ⟨"output", ?_, by decide⟩
    exact List.mem_filter.mpr ⟨hout, by decide⟩
  · intro h
    obtain ⟨c, -, hc⟩ := List.mem_map.mp h
    exact (transformRename_ne_dropped c).1 hc
  · intro h
    obtain ⟨c, -, hc⟩ := List.mem_map.mp h
    exact (transformRename_ne_dropped c).2 hc
  · intro h
    obtain ⟨c, hcf, hc⟩ := List.mem_map.mp h
    have hcne := (List.mem_filter.mp hcf).2
    have : c = "input" := transformRename_preimage_input.1 hc
    subst this
    simp at hcne
  · intro h
    obtain ⟨c, hcf, hc⟩ := List.mem_map.mp h
    have hcne := (List.mem_filter.mp hcf).2
    have : c = "text" := transformRename_preimage_input.2 hc
    subst this
    simp at hcne
  · simp

/-- Witness for C1 on the spec's own example row. -/
theorem C1_witness :
    ∃ t, transform ⟨["instruction", "input", "output", "text"],
        [["Explain X", "", "X is Y", "..."]]⟩ = some t ∧
      t.cols.length = (["instruction", "input", "output", "text"] : List String).length - 2 ∧
      "question" ∈ t.cols ∧ "target" ∈ t.cols ∧
      "instruction" ∉ t.cols ∧ "output" ∉ t.cols ∧
      "input" ∉ t.cols ∧ "text" ∉ t.cols ∧
      t.rows.length = ([["Explain X", "", "X is Y", "..."]] : List (List String)).length ∧
      t.rows = ([["Explain X", "", "X is Y", "..."]] : List (List String)).map (fun r =>
        (((["instruction", "input", "output", "text"] : List String).zip r).filter
          (fun p => !(["input", "text"] : List String).contains p.1)).map (fun p => p.2)) :=
  C1_transform_pure_projection
    ⟨["instruction", "input", "output", "text"], [["Explain X", "", "X is Y", "..."]]⟩
    (by decide) (by decide) (by decide) (by decide) (by decide)

/-! ### Claim C2: the `analyze()` report -/

/-- C2 counterexample: a non-empty raw table (with all four standard columns)
in which every row has an empty cell.  `analyze()` does not return a report:
`min(without_empty_rows["instruction"], key=len)` raises `ValueError` on the
empty cleaned view, so the claim "for every non-empty raw table, analyze()
returns a ... report" fails at this input. -/
theorem C2_counterexample :
    (Table.mk ["instruction", "input", "output", "text"] [["a", "", "b", "c"]]).rows ≠ [] ∧
    analyze ⟨["instruction", "input", "output", "text"], [["a", "", "b", "c"]]⟩ = none := by
  exact ⟨by decide, rfl⟩

/-- C2 (amended): for every non-empty raw table that has an `instruction`
column and at least one row with no empty cells, `analyze()` returns a report
whose sample count is the row count, whose column count is the column count,
whose duplicate count is `row count - number of distinct rows`, whose
empty-cell count is the number of empty-string cells, and whose min/max
instruction lengths are the least and greatest character lengths of the
`instruction` cells of the rows with no empty cells. -/
theorem C2_analyze_report (t : Table) (hwf : t.WF)
    (hins : "instruction" ∈ t.cols)
    (hcomp : ∃ r ∈ t.rows, rowComplete r = true) :
    t.rows ≠ [] ∧
    ∃ rep, analyze t = some rep ∧
      rep.dataset_number_of_samples = t.rows.length ∧
      rep.dataset_columns = t.cols.length ∧
      rep.dataset_duplicates + t.rows.dedup.length = t.rows.length ∧
      rep.dataset_empty_rows = t.rows.flatten.countP (fun c => c = "") ∧
      ∃ qi lens, t.colIdx "instruction" = some qi ∧
        mapMOpt (fun r => (r.get? qi).map String.length) (completeRows t) = some lens ∧
        rep.dataset_sample_min_len ∈ lens ∧
        (∀ x ∈ lens, rep.dataset_sample_min_len ≤ x) ∧
        rep.dataset_sample_max_len ∈ lens ∧
        (∀ x ∈ lens, x ≤ rep.dataset_sample_max_len) := by
  obtain ⟨r0, hr0, hr0c⟩ := hcomp
  obtain ⟨qi, hqi⟩ := colIdx_mem_some hins
  have hqilt : qi < t.cols.length := colIdx_lt_length hqi
  have hget : ∀ r ∈ completeRows t,
      (r.get? qi).map String.length = some (((r.get? qi).getD "").length) := by
    intro r hr
    have hrlen : r.length = t.cols.length := hwf r (List.mem_filter.mp hr).1
    have : qi < r.length := hrlen ▸ hqilt
    rw [List.get?_eq_getElem?, List.getElem?_eq_getElem this]
    rfl
  have hlens := mapMOpt_eq_some_map _ (fun r => ((r.get? qi).getD "").length)
    (completeRows t) hget
  have hmem0 : r0 ∈ completeRows t := List.mem_filter.mpr ⟨hr0, hr0c⟩
  have hne : completeRows t ≠ [] := List.ne_nil_of_mem hmem0
  refine ⟨List.ne_nil_of_mem hr0, ?_⟩
  rw [analyze, hqi, Option.some_bind, hlens, Option.some_bind]
  cases hcr : completeRows t with
  | nil => exact absurd hcr hne
  | cons c cs =>
      rw [List.map_cons]
      have hget' : ∀ r ∈ c :: cs,
          (r.get? qi).map String.length = some (((r.get? qi).getD "").length) := by
        rw [← hcr]
        exact hget
      refine ⟨_, rfl, rfl, rfl, dupCount_add_dedup t.rows, countEmptyCells_eq_flatten t,
        qi, _, rfl, mapMOpt_eq_some_map _ _ _ hget', ?_, ?_, ?_, ?_⟩
      · exact foldl_min_mem _ _
      · exact fun x hx => foldl_min_le _ _ x hx
      · exact foldl_max_mem _ _
      · exact fun x hx => foldl_max_ge _ _ x hx

/-- Witness for the amended C2 at a concrete table. -/
theorem C2_witness :
    exTableC2.rows ≠ [] ∧
    ∃ rep, analyze exTableC2 = some rep ∧
      rep.dataset_number_of_samples = exTableC2.rows.length ∧
      rep.dataset_columns = exTableC2.cols.length ∧
      rep.dataset_duplicates + exTableC2.rows.dedup.length = exTableC2.rows.length ∧
      rep.dataset_empty_rows = exTableC2.rows.flatten.countP (fun c => c = "") ∧
      ∃ qi lens, exTableC2.colIdx "instruction" = some qi ∧
        mapMOpt (fun r => (r.get? qi).map String.length) (completeRows exTableC2) = some lens ∧
        rep.dataset_sample_min_len ∈ lens ∧
        (∀ x ∈ lens, rep.dataset_sample_min_len ≤ x) ∧
        rep.dataset_sample_max_len ∈ lens ∧
        (∀ x ∈ lens, x ≤ rep.dataset_sample_max_len) :=
  C2_analyze_report exTableC2 (by decide) (by decide) (by decide)

/-! ### Claim C6: the `TaskDataset` adapter is a pure view -/

/-- C6: `len(adapter)` is the row count of the backing table; for a valid row
index `i` whose row stores cells `q` (in the `question` column) and `tg` (in
the `target` column), `adapter[i]` returns exactly the pair `(q, tg)`; and the
`data` accessor returns the backing table itself, unchanged. -/
theorem C6_taskDataset_view (data : Table) (i : Nat) (r : List String)
    (hr : data.rows.get? i = some r)
    (qi ti : Nat)
    (hq : data.colIdx "question" = some qi) (ht : data.colIdx "target" = some ti)
    (q tg : String) (hqc : r.get? qi = some q) (htc : r.get? ti = some tg) :
    taskLen data = data.rows.length ∧
    taskGetItem data i = some (q, tg) ∧
    taskData data = data := by
  refine ⟨rfl, ?_, rfl⟩
  rw [taskGetItem, hr, Option.some_bind, hq, Option.some_bind, ht, Option.some_bind,
    hqc, Option.some_bind, htc]
  rfl

/-- Witness for C6 on a concrete two-row backing table. -/
theorem C6_witness :
    taskLen ⟨["question", "target"], [["q0", "t0"], ["q1", "t1"]]⟩
      = (Table.mk ["question", "target"] [["q0", "t0"], ["q1", "t1"]]).rows.length ∧
    taskGetItem ⟨["question", "target"], [["q0", "t0"], ["q1", "t1"]]⟩ 1
      = some ("q1", "t1") ∧
    taskData ⟨["question", "target"], [["q0", "t0"], ["q1", "t1"]]⟩
      = ⟨["question", "target"], [["q0", "t0"], ["q1", "t1"]]⟩ :=
  C6_taskDataset_view ⟨["question", "target"], [["q0", "t0"], ["q1", "t1"]]⟩ 1
    ["q1", "t1"] (by decide) 0 1 (by decide) (by decide) "q1" "t1" (by decide) (by decide)

/-! ### Claim C9: `obtain()` fetches the train split and checks tabularity -/

/-- C9: `obtain()` consults the fetch only at the dataset name and the
`train` split (so its outcome is determined by that single fetch, with no
retry); a fetched DataFrame is returned as the raw data; a fetched
non-DataFrame raises `TypeError`; and any fetch failure `e` propagates
unmodified to the caller. -/
theorem C9_obtain_contract (fetch fetch' : String → String → Except E FetchRes)
    (hfName : String) :
    (fetch hfName "train" = fetch' hfName "train" →
      obtain fetch hfName = obtain fetch' hfName) ∧
    (∀ t, fetch hfName "train" = .ok (.dataFrame t) → obtain fetch hfName = .ok t) ∧
    (fetch hfName "train" = .ok .notDataFrame →
      obtain fetch hfName = .error .typeErr) ∧
    (∀ e, fetch hfName "train" = .error e →
      obtain fetch hfName = .error (.fetchFailure e)) := by
  refine ⟨fun h => ?_, fun t h => ?_, fun h => ?_, fun e h => ?_⟩ <;>
    rw [obtain, h]
  rw [obtain]

/-- Witness for C9: a fetch returning a one-row DataFrame, a fetch returning
something that is not a DataFrame, and a failing fetch. -/
theorem C9_witness :
    obtain (E := String) (fun _ _ => .ok (.dataFrame ⟨["instruction"], [["hi"]]⟩)) "ds"
      = .ok ⟨["instruction"], [["hi"]]⟩ ∧
    obtain (E := String) (fun _ _ => .ok .notDataFrame) "ds" = .error .typeErr ∧
    obtain (E := String) (fun _ _ => .error "connection reset") "ds"
      = .error (.fetchFailure "connection reset") :=
  ⟨(C9_obtain_contract _ (fun _ _ => .ok (.dataFrame ⟨["instruction"], [["hi"]]⟩)) "ds").2.1
      _ rfl,
   (C9_obtain_contract (fun _ _ => .ok .notDataFrame)
      (fun _ _ => .ok .notDataFrame) "ds").2.2.1 rfl,
   (C9_obtain_contract (fun _ _ => .error "connection reset")
      (fun _ _ => .error "connection reset") "ds").2.2.2 _ rfl⟩

/-! ### Claim C4: the batched decoding policy of `_infer_batch` -/

/-- C4: with a length-faithful tokenizer/model/decoder, `_infer_batch` on a
batch of questions tokenizes them with `padding=True, truncation=True`,
generates with the pipeline's `max_length`, decodes with
`skip_special_tokens=True`, and returns, for the `i`-th question, the `i`-th
decoded string with its first `len(question_i) + 1` characters removed. -/
theorem C4_infer_batch_policy (env : ModelEnv Tok Out)
    (hlen : env.LengthFaithful) (maxLength : Nat) (questions : List String) :
    ∃ out, inferBatchOnFirst env maxLength questions = some out ∧
      out = List.zipWith (fun p tx => p.drop (tx.length + 1))
        (env.batch_decode (env.generate (env.tokenize questions true true) maxLength) true)
        questions ∧
      out.length = questions.length ∧
      ∀ i q d, questions.get? i = some q →
        (env.batch_decode (env.generate (env.tokenize questions true true) maxLength)
            true).get? i = some d →
        out.get? i = some (d.drop (q.length + 1)) := by
  have hdl := hlen questions true true maxLength true
  refine ⟨_, stripPrompts_eq_zipWith _ _ (le_of_eq hdl), rfl, ?_, ?_⟩
  · rw [List.length_zipWith, hdl]
    exact Nat.min_self _
  · intro i q d hq hd
    rw [List.get?_eq_getElem?] at *
    rw [List.getElem?_zipWith, hq, hd]

/-- Witness for C4 at the identity environment and a two-question batch. -/
theorem C4_witness :
    ∃ out, inferBatchOnFirst wEnv 3 ["hello", "hi"] = some out ∧
      out = List.zipWith (fun p tx => p.drop (tx.length + 1))
        (wEnv.batch_decode (wEnv.generate (wEnv.tokenize ["hello", "hi"] true true) 3) true)
        ["hello", "hi"] ∧
      out.length = (["hello", "hi"] : List String).length ∧
      ∀ i q d, (["hello", "hi"] : List String).get? i = some q →
        (wEnv.batch_decode (wEnv.generate (wEnv.tokenize ["hello", "hi"] true true) 3)
            true).get? i = some d →
        out.get? i = some (d.drop (q.length + 1)) :=
  C4_infer_batch_policy wEnv (fun _ _ _ _ _ => rfl) 3 ["hello", "hi"]

/-! ### Claim C5: `infer_sample` versus the single-element batched path -/

/-- C5 counterexample: `infer_sample(sample)` does not run the sample as a
single-element batch through the batched path of `infer_dataset`.  Because
`_infer_batch((sample,))` receives the pair itself as `sample_batch[0]`, both
the question and the target are tokenized as a two-string batch.  At the
length-faithful environment `cEnv` and sample `("a", "b")`, the single-element
batch `["a"]` yields the prediction `"a"`, but `infer_sample` returns `"ab"`. -/
theorem C5_counterexample :
    cEnv.LengthFaithful ∧
    inferBatchOnFirst cEnv 5 ["a"] = some ["a"] ∧
    inferSample cEnv 5 true ("a", "b") = some (some "ab") ∧
    inferSample cEnv 5 true ("a", "b") ≠ some (some "a") := by
  refine ⟨fun texts _ _ _ _ => ?_, rfl, rfl, by decide⟩
  simp [cEnv]

/-- C5 (amended): `infer_sample(sample)` passes the sample pair itself as the
batch, so the batched path tokenizes the question and the target together as
a two-string batch; it returns the first of the two resulting predictions
(the question's decoded string with `len(question)+1` characters stripped),
and it returns `None` only when no model is loaded. -/
theorem C5_infer_sample_pair (env : ModelEnv Tok Out) (hlen : env.LengthFaithful)
    (maxLength : Nat) (s : String × String) :
    (∃ d1 d2,
      env.batch_decode (env.generate (env.tokenize [s.1, s.2] true true) maxLength) true
        = [d1, d2] ∧
      inferSample env maxLength true s = some (some (d1.drop (s.1.length + 1)))) ∧
    inferSample env maxLength false s = some none ∧
    (∀ loaded, inferSample env maxLength loaded s = some none → loaded = false) := by
  have hdl := hlen [s.1, s.2] true true maxLength true
  refine ⟨?_, rfl, ?_⟩
  · cases hdec :
      env.batch_decode (env.generate (env.tokenize [s.1, s.2] true true) maxLength) true with
    | nil => rw [hdec] at hdl; simp at hdl
    | cons d1 rest =>
        cases rest with
        | nil => rw [hdec] at hdl; simp at hdl
        | cons d2 rest2 =>
            cases rest2 with
            | cons d3 rest3 => rw [hdec] at hdl; simp at hdl
            | nil =>
                refine ⟨d1, d2, rfl, ?_⟩
                rw [inferSample, if_pos rfl, inferBatchOnFirst, hdec]
                rfl
  · intro loaded h
    cases loaded with
    | false => rfl
    | true =>
        exfalso
        rw [inferSample, if_pos rfl] at h
        cases hx : (inferBatchOnFirst env maxLength [s.1, s.2]).bind
            (fun preds => preds.get? 0) with
        | none => rw [hx] at h; simp at h
        | some v => rw [hx] at h; simp at h

/-- Witness for the amended C5 at the identity environment. -/
theorem C5_witness :
    (∃ d1 d2,
      wEnv.batch_decode (wEnv.generate (wEnv.tokenize ["ab", "cd"] true true) 4) true
        = [d1, d2] ∧
      inferSample wEnv 4 true ("ab", "cd") = some (some (d1.drop ("ab".length + 1)))) ∧
    inferSample wEnv 4 false ("ab", "cd") = some none ∧
    (∀ loaded, inferSample wEnv 4 loaded ("ab", "cd") = some none → loaded = false) :=
  C5_infer_sample_pair wEnv (fun _ _ _ _ _ => rfl) 4 ("ab", "cd")

/-! ### Claim C3: `infer_dataset` batching, alignment and result shape -/

/-- C3: with a length-faithful environment and a well-formed clean table with
`question`/`target` columns and no pre-existing `predictions` column,
`infer_dataset` reads the dataset as `(question, target)` samples in index
order, iterates them in fixed-size batches (every non-final batch has exactly
`batch_size` elements, every batch is non-empty and at most `batch_size`, and
their concatenation in order is the sample sequence), accumulates one decoded
prediction per input row in that order, appends them as a `predictions`
column to the backing table, and returns a two-column `(target, predictions)`
view with one row per input row in which row `i` pairs the `i`-th target with
the `i`-th prediction. -/
theorem C3_infer_dataset_shape (env : ModelEnv Tok Out) (hlen : env.LengthFaithful)
    (batchSize maxLength : Nat) (hbs : 0 < batchSize)
    (d : Table) (hwf : d.WF)
    (qi ti : Nat) (hq : d.colIdx "question" = some qi) (ht : d.colIdx "target" = some ti)
    (hnp : "predictions" ∉ d.cols) :
    ∃ samples preds backing view,
      mapMOpt (taskGetItem d) (List.range (taskLen d)) = some samples ∧
      samples.length = d.rows.length ∧
      (∀ b ∈ chunksOf batchSize samples, 0 < b.length ∧ b.length ≤ batchSize) ∧
      (∀ b ∈ (chunksOf batchSize samples).dropLast, b.length = batchSize) ∧
      (chunksOf batchSize samples).flatten = samples ∧
      inferPreds env batchSize maxLength d = some preds ∧
      preds = ((chunksOf batchSize samples).map (fun b =>
        List.zipWith (fun p tx => p.drop (tx.length + 1))
          (env.batch_decode
            (env.generate (env.tokenize (b.map Prod.fst) true true) maxLength) true)
          (b.map Prod.fst))).flatten ∧
      preds.length = d.rows.length ∧
      inferDataset env batchSize maxLength d = some (backing, view) ∧
      backing.cols = d.cols ++ ["predictions"] ∧
      backing.rows = (d.rows.zip preds).map (fun p => p.1 ++ [p.2]) ∧
      view.cols = ["target", "predictions"] ∧
      view.rows.length = d.rows.length ∧
      (∀ i r p, d.rows.get? i = some r → preds.get? i = some p →
        ∃ tg, r.get? ti = some tg ∧ view.rows.get? i = some [tg, p]) := by
  have hqlt := colIdx_lt_length hq
  have htlt := colIdx_lt_length ht
  -- the sample sequence read through `__len__` and `__getitem__` in index order
  have hitem : ∀ i ∈ List.range (taskLen d), taskGetItem d i =
      some ((((d.rows.get? i).getD []).get? qi).getD "",
            (((d.rows.get? i).getD []).get? ti).getD "") := by
    intro i hi
    have hilt : i < d.rows.length := List.mem_range.mp hi
    have hrow : d.rows.get? i = some d.rows[i] := by
      rw [List.get?_eq_getElem?, List.getElem?_eq_getElem hilt]
    have hrlen : d.rows[i].length = d.cols.length := hwf _ (List.getElem?_mem (by
      rw [List.getElem?_eq_getElem hilt]))
    have hqv : d.rows[i].get? qi = some d.rows[i][qi] := by
      rw [List.get?_eq_getElem?,
        List.getElem?_eq_getElem (show qi < d.rows[i].length by omega)]
    have htv : d.rows[i].get? ti = some d.rows[i][ti] := by
      rw [List.get?_eq_getElem?,
        List.getElem?_eq_getElem (show ti < d.rows[i].length by omega)]
    rw [taskGetItem, hrow, Option.some_bind, hq, Option.some_bind, ht, Option.some_bind,
      hqv, Option.some_bind, htv]
    rw [List.get?_eq_getElem?] at hqv htv
    simp [hqv, htv]
  have hsamples := mapMOpt_eq_some_map (taskGetItem d)
      (fun i => ((((d.rows.get? i).getD []).get? qi).getD "",
                 (((d.rows.get? i).getD []).get? ti).getD ""))
      (List.range (taskLen d)) hitem
  set S := (List.range (taskLen d)).map
      (fun i => ((((d.rows.get? i).getD []).get? qi).getD "",
                 (((d.rows.get? i).getD []).get? ti).getD "")) with hS
  have hSlen : S.length = d.rows.length := by
    rw [hS]
    simp [taskLen]
  -- every batch succeeds and produces one stripped prediction per question
  have hbatch : ∀ b ∈ chunksOf batchSize S,
      inferBatchOnFirst env maxLength (b.map Prod.fst)
        = some (List.zipWith (fun p tx => p.drop (tx.length + 1))
            (env.batch_decode
              (env.generate (env.tokenize (b.map Prod.fst) true true) maxLength) true)
            (b.map Prod.fst)) :=
    fun b _ => stripPrompts_eq_zipWith _ _ (le_of_eq (hlen _ true true maxLength true))
  have hpredsM := mapMOpt_eq_some_map (fun b => inferBatchOnFirst env maxLength
      (b.map Prod.fst))
      (fun b => List.zipWith (fun p tx => p.drop (tx.length + 1))
        (env.batch_decode
          (env.generate (env.tokenize (b.map Prod.fst) true true) maxLength) true)
        (b.map Prod.fst))
      (chunksOf batchSize S) hbatch
  set P := ((chunksOf batchSize S).map (fun b =>
      List.zipWith (fun p tx => p.drop (tx.length + 1))
        (env.batch_decode
          (env.generate (env.tokenize (b.map Prod.fst) true true) maxLength) true)
        (b.map Prod.fst))).flatten with hP
  have hGlen : ∀ b ∈ chunksOf batchSize S,
      (List.zipWith (fun p tx => p.drop (tx.length + 1))
        (env.batch_decode
          (env.generate (env.tokenize (b.map Prod.fst) true true) maxLength) true)
        (b.map Prod.fst)).length = b.length := by
    intro b _
    rw [List.length_zipWith, hlen _ true true maxLength true, List.length_map]
    exact Nat.min_self _
  have hPlen : P.length = d.rows.length := by
    rw [hP, flatten_map_length_eq (chunksOf batchSize S) hGlen,
      chunksOf_flatten, hSlen]
  have hip : inferPreds env batchSize maxLength d = some P := by
    rw [inferPreds, hsamples, Option.some_bind, hpredsM]
    rfl
  have hsc : d.setColumn "predictions" P = some ⟨d.cols ++ ["predictions"],
      (d.rows.zip P).map (fun p => p.1 ++ [p.2])⟩ := by
    rw [Table.setColumn, if_pos hPlen, colIdx_not_mem hnp]
  set B := (⟨d.cols ++ ["predictions"],
      (d.rows.zip P).map (fun p => p.1 ++ [p.2])⟩ : Table) with hB
  have hbt : B.colIdx "target" = some ti := by
    have ht' : d.cols.findIdx? (fun c0 => c0 = "target") = some ti := ht
    show (d.cols ++ ["predictions"]).findIdx? (fun c0 => c0 = "target") = some ti
    rw [List.findIdx?_append, ht']
    rfl
  have hbp : B.colIdx "predictions" = some d.cols.length := by
    have hnone : d.cols.findIdx? (fun c0 => c0 = "predictions") = none :=
      colIdx_not_mem hnp
    show (d.cols ++ ["predictions"]).findIdx? (fun c0 => c0 = "predictions")
      = some d.cols.length
    rw [List.findIdx?_append, hnone, Option.none_or]
    have h0 : (["predictions"] : List String).findIdx? (fun c0 => c0 = "predictions")
        = some 0 := rfl
    rw [h0]
    simp
  have hidxs : mapMOpt B.colIdx ["target", "predictions"] = some [ti, d.cols.length] := by
    rw [mapMOpt, hbt, Option.some_bind, mapMOpt, hbp, Option.some_bind, mapMOpt]
    rfl
  have happend : ∀ (r : List String) (p : String), r.length = d.cols.length →
      (r ++ [p]).get? ti = r.get? ti ∧ (r ++ [p]).get? d.cols.length = some p := by
    intro r p hrl
    constructor
    · rw [List.get?_eq_getElem?, List.get?_eq_getElem?, List.getElem?_append,
        if_pos (show ti < r.length by omega)]
    · rw [List.get?_eq_getElem?, ← hrl, List.getElem?_concat_length]
  have hrowsel : ∀ r' ∈ B.rows, mapMOpt r'.get? [ti, d.cols.length]
      = some [(r'.get? ti).getD "", (r'.get? d.cols.length).getD ""] := by
    intro r' hr'
    rw [hB] at hr'
    obtain ⟨⟨r, p⟩, hzip, happ⟩ := List.mem_map.mp hr'
    have hrmem : r ∈ d.rows := (List.of_mem_zip hzip).1
    have hrl : r.length = d.cols.length := hwf r hrmem
    obtain ⟨e1, e2⟩ := happend r p hrl
    have htilt : ti < r.length := by omega
    have hti2 : r.get? ti = some (r.get ⟨ti, htilt⟩) := by
      rw [List.get?_eq_getElem?, List.getElem?_eq_getElem htilt, List.get_eq_getElem]
    subst happ
    rw [List.get?_eq_getElem?, List.get?_eq_getElem?] at e1
    rw [List.get?_eq_getElem?] at e2
    rw [List.get?_eq_getElem?] at hti2
    simp [mapMOpt, e1, e2, hti2]
  have hrowsM := mapMOpt_eq_some_map (fun r' => mapMOpt r'.get? [ti, d.cols.length])
      (fun r' => [(r'.get? ti).getD "", (r'.get? d.cols.length).getD ""])
      B.rows hrowsel
  set V := (⟨["target", "predictions"],
      B.rows.map (fun r' =>
        [(r'.get? ti).getD "", (r'.get? d.cols.length).getD ""])⟩ : Table) with hV
  have hsel : B.selectCols ["target", "predictions"] = some V := by
    rw [Table.selectCols, hidxs, Option.some_bind, hrowsM]
    rfl
  have hid : inferDataset env batchSize maxLength d = some (B, V) := by
    rw [inferDataset, hip, Option.some_bind, hsc, Option.some_bind, hsel]
    rfl
  have hlenV : V.rows.length = d.rows.length := by
    rw [hV]
    simp only [List.length_map]
    rw [List.length_zip, hPlen]
    exact Nat.min_self _
  refine ⟨S, P, B, V, hsamples, hSlen, chunksOf_length_le batchSize hbs S,
    chunksOf_dropLast_length batchSize hbs S, chunksOf_flatten batchSize S,
    hip, hP, hPlen, hid, by rw [hB], by rw [hB], by rw [hV], hlenV, ?_⟩
  intro i r p hri hpi
  have hrmem : r ∈ d.rows := List.getElem?_mem (by rw [← List.get?_eq_getElem?]; exact hri)
  have hrl : r.length = d.cols.length := hwf r hrmem
  have htilt : ti < r.length := by omega
  obtain ⟨e1, e2⟩ := happend r p hrl
  have htg : r.get? ti = some (r.get ⟨ti, htilt⟩) := by
    rw [List.get?_eq_getElem?, List.getElem?_eq_getElem htilt, List.get_eq_getElem]
  refine ⟨r.get ⟨ti, htilt⟩, htg, ?_⟩
  have hzipi : (d.rows.zip P)[i]? = some (r, p) := by
    rw [List.getElem?_zip_eq_some]
    exact ⟨by rw [← List.get?_eq_getElem?]; exact hri,
           by rw [← List.get?_eq_getElem?]; exact hpi⟩
  rw [List.get?_eq_getElem?, List.get?_eq_getElem?] at e1
  rw [List.get?_eq_getElem?] at e2
  have htg' := htg
  rw [List.get?_eq_getElem?] at htg'
  rw [hV, hB, List.get?_eq_getElem?]
  simp only [List.getElem?_map, hzipi, Option.map_some']
  simp [e1, e2, htg']

/-- Witness for C3: the identity environment, batch size 2, and a three-row
table (so the final batch is smaller). -/
theorem C3_witness :
    ∃ samples preds backing view,
      mapMOpt (taskGetItem exTableC3) (List.range (taskLen exTableC3)) = some samples ∧
      samples.length = exTableC3.rows.length ∧
      (∀ b ∈ chunksOf 2 samples, 0 < b.length ∧ b.length ≤ 2) ∧
      (∀ b ∈ (chunksOf 2 samples).dropLast, b.length = 2) ∧
      (chunksOf 2 samples).flatten = samples ∧
      inferPreds wEnv 2 3 exTableC3 = some preds ∧
      preds = ((chunksOf 2 samples).map (fun b =>
        List.zipWith (fun p tx => p.drop (tx.length + 1))
          (wEnv.batch_decode
            (wEnv.generate (wEnv.tokenize (b.map Prod.fst) true true) 3) true)
          (b.map Prod.fst))).flatten ∧
      preds.length = exTableC3.rows.length ∧
      inferDataset wEnv 2 3 exTableC3 = some (backing, view) ∧
      backing.cols = exTableC3.cols ++ ["predictions"] ∧
      backing.rows = (exTableC3.rows.zip preds).map (fun p => p.1 ++ [p.2]) ∧
      view.cols = ["target", "predictions"] ∧
      view.rows.length = exTableC3.rows.length ∧
      (∀ i r p, exTableC3.rows.get? i = some r → preds.get? i = some p →
        ∃ tg, r.get? 1 = some tg ∧ view.rows.get? i = some [tg, p]) :=
  C3_infer_dataset_shape wEnv (fun _ _ _ _ _ => rfl) 2 3 (by decide) exTableC3
    (by decide) 0 1 rfl rfl (by decide)

/-! ### Claim C10: predictions never depend on targets -/

/-- C10: during `infer_dataset`, only the question component of each collated
batch reaches the tokenizer and model, so two datasets that read out the same
question sequence — however their targets differ — produce exactly the same
predictions. -/
theorem C10_predictions_independent_of_targets (env : ModelEnv Tok Out)
    (batchSize maxLength : Nat) (d1 d2 : Table)
    (s1 s2 : List (String × String))
    (h1 : mapMOpt (taskGetItem d1) (List.range (taskLen d1)) = some s1)
    (h2 : mapMOpt (taskGetItem d2) (List.range (taskLen d2)) = some s2)
    (hq : s1.map Prod.fst = s2.map Prod.fst) :
    inferPreds env batchSize maxLength d1 = inferPreds env batchSize maxLength d2 := by
  have key : ∀ s : List (String × String),
      mapMOpt (fun b => inferBatchOnFirst env maxLength (b.map Prod.fst))
        (chunksOf batchSize s)
      = mapMOpt (fun qs => inferBatchOnFirst env maxLength qs)
          (chunksOf batchSize (s.map Prod.fst)) := by
    intro s
    rw [chunksOf_map batchSize Prod.fst s, mapMOpt_map]
  rw [inferPreds, inferPreds, h1, h2, Option.some_bind, Option.some_bind, key, key, hq]

/-- Witness for C10: two two-row tables sharing questions but with different
targets produce identical predictions under the identity environment. -/
theorem C10_witness :
    inferPreds wEnv 2 3 ⟨["question", "target"], [["q0", "tA"], ["q1", "tB"]]⟩
      = inferPreds wEnv 2 3 ⟨["question", "target"], [["q0", "tC"], ["q1", "tD"]]⟩ :=
  C10_predictions_independent_of_targets wEnv 2 3
    ⟨["question", "target"], [["q0", "tA"], ["q1", "tB"]]⟩
    ⟨["question", "target"], [["q0", "tC"], ["q1", "tD"]]⟩
    [("q0", "tA"), ("q1", "tB")] [("q0", "tC"), ("q1", "tD")]
    rfl rfl rfl

/-! ### Evaluator lemmas -/

theorem lookup_overwrite (k : String) (v : Option V) :
    ∀ d : List (String × Option V), d.any (fun p => p.1 = k) = true →
      (d.map (fun p => if p.1 = k then (k, v) else p)).lookup k = some v
  | [], h => by simp at h
  | (k1, b1) :: ds, h => by
      by_cases hp : k1 = k
      · simp only [List.map_cons, if_pos hp, List.lookup_cons, beq_self_eq_true]
      · have h' : ds.any (fun p => p.1 = k) = true := by
          rcases List.any_eq_true.mp h with ⟨q, hq, hqk⟩
          rcases List.mem_cons.mp hq with rfl | hq'
          · exact absurd (by simpa using hqk) hp
          · exact List.any_eq_true.mpr ⟨q, hq', hqk⟩
        have hbeq : (k == k1) = false := beq_eq_false_iff_ne.mpr (fun he => hp he.symm)
        simp only [List.map_cons, if_neg hp, List.lookup_cons, hbeq]
        exact lookup_overwrite k v ds h'

theorem lookup_overwrite_other (k k' : String) (v : Option V) (hkk : k' ≠ k) :
    ∀ d : List (String × Option V),
      (d.map (fun p => if p.1 = k then (k, v) else p)).lookup k' = d.lookup k'
  | [] => rfl
  | (k1, b1) :: ds => by
      by_cases hp : k1 = k
      · have h1 : (k' == k) = false := beq_eq_false_iff_ne.mpr hkk
        have h2 : (k' == k1) = false := beq_eq_false_iff_ne.mpr (hp ▸ hkk)
        simp only [List.map_cons, if_pos hp, List.lookup_cons, h1, h2]
        exact lookup_overwrite_other k k' v hkk ds
      · simp only [List.map_cons, if_neg hp, List.lookup_cons]
        cases hbeq : (k' == k1) with
        | true => rfl
        | false => exact lookup_overwrite_other k k' v hkk ds

theorem lookup_append_new (k : String) (v : Option V) :
    ∀ d : List (String × Option V), d.any (fun p => p.1 = k) = false →
      (d ++ [(k, v)]).lookup k = some v
  | [], _ => by simp [List.lookup_cons]
  | (k1, b1) :: ds, h => by
      have hp : ¬(k1 = k) := by
        intro he
        have hh : ((k1, b1) :: ds).any (fun p => p.1 = k) = true :=
          List.any_eq_true.mpr ⟨(k1, b1), List.mem_cons_self _ _, by simpa using he⟩
        rw [hh] at h
        cases h
      have h' : ds.any (fun p => p.1 = k) = false := by
        cases hds : ds.any (fun p => p.1 = k) with
        | false => rfl
        | true =>
            rcases List.any_eq_true.mp hds with ⟨q, hq, hqk⟩
            have hh : ((k1, b1) :: ds).any (fun p => p.1 = k) = true :=
              List.any_eq_true.mpr ⟨q, List.mem_cons_of_mem _ hq, hqk⟩
            rw [hh] at h
            cases h
      have hbeq : (k == k1) = false := beq_eq_false_iff_ne.mpr (fun he => hp he.symm)
      simp only [List.cons_append, List.lookup_cons, hbeq]
      exact lookup_append_new k v ds h'

theorem lookup_append_other (k k' : String) (v : Option V) (hkk : k' ≠ k) :
    ∀ d : List (String × Option V), (d ++ [(k, v)]).lookup k' = d.lookup k'
  | [] => by
      have hbeq : (k' == k) = false := beq_eq_false_iff_ne.mpr hkk
      simp [List.lookup_cons, hbeq, List.lookup]
  | (k1, b1) :: ds => by
      simp only [List.cons_append, List.lookup_cons]
      cases hbeq : (k' == k1) with
      | true => rfl
      | false => exact lookup_append_other k k' v hkk ds

theorem dictUpdate_lookup_self (d : List (String × Option V)) (k : String) (v : Option V) :
    (dictUpdate d k v).lookup k = some v := by
  rw [dictUpdate]
  split
  · next h => exact lookup_overwrite k v d h
  · next h =>
      have h' : d.any (fun p => p.1 = k) = false := by
        cases hv : d.any (fun p => p.1 = k) with
        | false => rfl
        | true => exact absurd hv h
      exact lookup_append_new k v d h'

theorem dictUpdate_lookup_other (d : List (String × Option V)) (k k' : String)
    (v : Option V) (hkk : k' ≠ k) :
    (dictUpdate d k v).lookup k' = d.lookup k' := by
  rw [dictUpdate]
  split
  · exact lookup_overwrite_other k k' v hkk d
  · exact lookup_append_other k k' v hkk d

theorem dictUpdate_mem (d : List (String × Option V)) (k : String) (v : Option V) :
    ∀ p ∈ dictUpdate d k v, p.1 = k ∨ p ∈ d := by
  intro p hp
  rw [dictUpdate] at hp
  split at hp
  · obtain ⟨q, hq, hqe⟩ := List.mem_map.mp hp
    by_cases h : q.1 = k
    · left
      rw [← hqe, if_pos h]
    · right
      rw [← hqe, if_neg h]
      exact hq
  · rcases List.mem_append.mp hp with h | h
    · right
      exact h
    · left
      rw [List.mem_singleton.mp h]

theorem runMetricsLoop_spec (env : EvalEnv V) (data : Table)
    (tgt prd : List String) (htgt : data.col? "target" = some tgt)
    (hprd : data.col? "predictions" = some prd) :
    ∀ (ms : List String) (acc : List (String × Option V)),
      ∃ res, runMetricsLoop env data acc ms = some res ∧
        (res.lookup "bleu" = if "bleu" ∈ ms
          then some (env.bleuCompute tgt prd "bleu") else acc.lookup "bleu") ∧
        (res.lookup "rouge" = if "rouge" ∈ ms
          then some (env.rougeCompute tgt prd "rougeL") else acc.lookup "rouge") ∧
        (∀ k, k ≠ "bleu" → k ≠ "rouge" → res.lookup k = acc.lookup k) ∧
        (∀ p ∈ res, p.1 = "bleu" ∨ p.1 = "rouge" ∨ p ∈ acc)
  | [], acc =>
      ⟨acc, rfl, by simp, by simp, fun _ _ _ => rfl, fun p hp => Or.inr (Or.inr hp)⟩
  | m :: ms, acc => by
      rw [runMetricsLoop]
      by_cases hb : m = "bleu"
      · subst hb
        rw [if_pos rfl, htgt, Option.some_bind, hprd, Option.some_bind]
        obtain ⟨res, hrun, hbleu, hrouge, hother, hkeys⟩ :=
          runMetricsLoop_spec env data tgt prd htgt hprd ms
            (dictUpdate acc "bleu" (env.bleuCompute tgt prd "bleu"))
        refine ⟨res, hrun, ?_, ?_, ?_, ?_⟩
        · rw [if_pos (List.mem_cons_self _ _)]
          by_cases hms : "bleu" ∈ ms
          · rw [hbleu, if_pos hms]
          · rw [hbleu, if_neg hms, dictUpdate_lookup_self]
        · by_cases hms : "rouge" ∈ ms
          · rw [hrouge, if_pos hms, if_pos (List.mem_cons_of_mem _ hms)]
          · rw [hrouge, if_neg hms, dictUpdate_lookup_other _ _ _ _ (by decide),
              if_neg (by
                rw [List.mem_cons]
                rintro (h | h)
                · exact absurd h (by decide)
                · exact hms h)]
        · intro k hkb hkr
          rw [hother k hkb hkr, dictUpdate_lookup_other _ _ _ _ hkb]
        · intro p hp
          rcases hkeys p hp with h | h | h
          · exact Or.inl h
          · exact Or.inr (Or.inl h)
          · rcases dictUpdate_mem _ _ _ p h with h' | h'
            · exact Or.inl h'
            · exact Or.inr (Or.inr h')
      · rw [if_neg hb]
        by_cases hr : m = "rouge"
        · subst hr
          rw [if_pos rfl, htgt, Option.some_bind, hprd, Option.some_bind]
          obtain ⟨res, hrun, hbleu, hrouge, hother, hkeys⟩ :=
            runMetricsLoop_spec env data tgt prd htgt hprd ms
              (dictUpdate acc "rouge" (env.rougeCompute tgt prd "rougeL"))
          refine ⟨res, hrun, ?_, ?_, ?_, ?_⟩
          · by_cases hms : "bleu" ∈ ms
            · rw [hbleu, if_pos hms, if_pos (List.mem_cons_of_mem _ hms)]
            · rw [hbleu, if_neg hms, dictUpdate_lookup_other _ _ _ _ (by decide),
                if_neg (by
                  rw [List.mem_cons]
                  rintro (h | h)
                  · exact absurd h (by decide)
                  · exact hms h)]
          · rw [if_pos (List.mem_cons_self _ _)]
            by_cases hms : "rouge" ∈ ms
            · rw [hrouge, if_pos hms]
            · rw [hrouge, if_neg hms, dictUpdate_lookup_self]
          · intro k hkb hkr
            rw [hother k hkb hkr, dictUpdate_lookup_other _ _ _ _ hkr]
          · intro p hp
            rcases hkeys p hp with h | h | h
            · exact Or.inl h
            · exact Or.inr (Or.inl h)
            · rcases dictUpdate_mem _ _ _ p h with h' | h'
              · exact Or.inr (Or.inl h')
              · exact Or.inr (Or.inr h')
        · rw [if_neg hr]
          obtain ⟨res, hrun, hbleu, hrouge, hother, hkeys⟩ :=
            runMetricsLoop_spec env data tgt prd htgt hprd ms acc
          refine ⟨res, hrun, ?_, ?_, hother, fun p hp => hkeys p hp⟩
          · rw [hbleu]
            have : ("bleu" ∈ m :: ms) ↔ "bleu" ∈ ms := by
              rw [List.mem_cons]
              exact or_iff_right (fun h => hb h.symm)
            rw [if_congr this rfl rfl]
          · rw [hrouge]
            have : ("rouge" ∈ m :: ms) ↔ "rouge" ∈ ms := by
              rw [List.mem_cons]
              exact or_iff_right (fun h => hr h.symm)
            rw [if_congr this rfl rfl]

/-! ### Claims C7 and C8: `TaskEvaluator.run` -/

/-- C7: whenever the persisted CSV has the `Unnamed: 0` index column and the
`target`/`predictions` columns, `run()` never fails on an unrecognized metric
identifier in the requested list: it returns a metrics mapping in which that
identifier simply has no entry. -/
theorem C7_unknown_metric_skipped (env : EvalEnv V) (csv data : Table)
    (ms : List String)
    (hd : csv.dropColumns ["Unnamed: 0"] = some data)
    (tgt prd : List String)
    (htgt : data.col? "target" = some tgt) (hprd : data.col? "predictions" = some prd)
    (m : String) (hm : m ∈ ms) (hmb : m ≠ "bleu") (hmr : m ≠ "rouge") :
    ∃ res, runEvaluator env csv ms = some res ∧
      res.lookup m = none ∧ (∀ p ∈ res, ¬(p.1 = m)) := by
  obtain ⟨res, hrun, -, -, hother, hkeys⟩ :=
    runMetricsLoop_spec env data tgt prd htgt hprd ms []
  refine ⟨res, ?_, ?_, ?_⟩
  · rw [runEvaluator, hd, Option.some_bind]
    exact hrun
  · rw [hother m hmb hmr]
    rfl
  · intro p hp
    rcases hkeys p hp with h | h | h
    · exact fun he => hmb (he ▸ h)
    · exact fun he => hmr (he ▸ h)
    · cases h

/-- C8: `run()` reads the CSV, drops the `Unnamed: 0` index artifact, and
returns a mapping whose only possible keys are `bleu` and `rouge`; when
`bleu` is requested it stores exactly the external bleu scorer's `"bleu"`
entry on the `target`/`predictions` columns, and when `rouge` is requested it
stores exactly the external rouge scorer's `"rougeL"` entry. -/
theorem C8_evaluator_scores (env : EvalEnv V) (csv data : Table)
    (ms : List String)
    (hd : csv.dropColumns ["Unnamed: 0"] = some data)
    (tgt prd : List String)
    (htgt : data.col? "target" = some tgt) (hprd : data.col? "predictions" = some prd) :
    ∃ res, runEvaluator env csv ms = some res ∧
      (res.lookup "bleu"
        = if "bleu" ∈ ms then some (env.bleuCompute tgt prd "bleu") else none) ∧
      (res.lookup "rouge"
        = if "rouge" ∈ ms then some (env.rougeCompute tgt prd "rougeL") else none) ∧
      (∀ p ∈ res, p.1 = "bleu" ∨ p.1 = "rouge") := by
  obtain ⟨res, hrun, hbleu, hrouge, -, hkeys⟩ :=
    runMetricsLoop_spec env data tgt prd htgt hprd ms []
  refine ⟨res, ?_, ?_, ?_, ?_⟩
  · rw [runEvaluator, hd, Option.some_bind]
    exact hrun
  · exact hbleu
  · exact hrouge
  · intro p hp
    rcases hkeys p hp with h | h | h
    · exact Or.inl h
    · exact Or.inr h
    · cases h

/-- Witness for C7: requesting `accuracy` alongside `bleu` raises nothing and
the result omits `accuracy`. -/
theorem C7_witness :
    ∃ res, runEvaluator evEnvW csvW ["accuracy", "bleu"] = some res ∧
      res.lookup "accuracy" = none ∧ (∀ p ∈ res, ¬(p.1 = "accuracy")) :=
  C7_unknown_metric_skipped evEnvW csvW ⟨["target", "predictions"], [["t", "p"]]⟩
    ["accuracy", "bleu"] rfl ["t"] ["p"] rfl rfl "accuracy"
    (List.mem_cons_self _ _) (by decide) (by decide)

/-- Witness for C8 at the same CSV, requesting both supported metrics. -/
theorem C8_witness :
    ∃ res, runEvaluator evEnvW csvW ["bleu", "rouge"] = some res ∧
      (res.lookup "bleu" = if "bleu" ∈ (["bleu", "rouge"] : List String)
        then some (evEnvW.bleuCompute ["t"] ["p"] "bleu") else none) ∧
      (res.lookup "rouge" = if "rouge" ∈ (["bleu", "rouge"] : List String)
        then some (evEnvW.rougeCompute ["t"] ["p"] "rougeL") else none) ∧
      (∀ p ∈ res, p.1 = "bleu" ∨ p.1 = "rouge") :=
  C8_evaluator_scores evEnvW csvW ⟨["target", "predictions"], [["t", "p"]]⟩
    ["bleu", "rouge"] rfl ["t"] ["p"] rfl rfl

end Lab8
